import Mathlib

/-!
Verification of the dashboard serializers of the spotnet repository
(src/web_app/api/serializers/dashboard.py) against its specification.

The Python code is shallowly embedded: raw payloads are modelled by the
`PyVal` type (JSON-like values with Python dict semantics as association
lists in insertion order), Python exceptions by `PyErr`, and the
`decimal.Decimal` arithmetic used by `Position.convert_total_balances`
by `PyDecimal` together with faithful models of CPython `_pydecimal`
division (`dec_div`), rounding and exponent-limit handling (`fixPrec`,
under the default context: precision 28, ROUND_HALF_EVEN, `Emin`
-999999, `Emax` 999999, clamp 0, the Overflow signal trapped) and
string rendering (`decStr`).

Pydantic v2 semantics that the source relies on are modelled explicitly:
fields are looked up by alias first and then by field name (when
`populate_by_name` is set), `mode="before"` validators run on the raw
field value and are skipped when an absent field takes its default,
`ValueError` raised inside a validator surfaces as a validation error
carrying its message, while exceptions of other classes (for instance
`decimal.InvalidOperation` or `AttributeError`) escape validation
unwrapped.  Extra keys in input dicts are ignored.
-/

namespace Spotnet

/-- JSON-like values exchanged with the serializers.  `float` carries the
exact rational value of an IEEE double; it is used only as an opaque
payload (the `Dict[str, Any]` balances field), never arithmetically. -/
inductive PyVal : Type where
  | str (s : String)
  | int (n : Int)
  | float (q : ℚ)
  | bool (b : Bool)
  | none
  | dict (entries : List (String × PyVal))
  | list (items : List PyVal)

/-- A Python dict with string keys, in insertion order. -/
abbrev PyDict := List (String × PyVal)

/-- Python exceptions that the serializer code can raise.  A
`valueError` raised inside a pydantic validator is what pydantic turns
into a `ValidationError` carrying the same message; `validationError`
models schema errors produced by pydantic itself (missing required
field, wrong type).  `invalidOperation` models
`decimal.InvalidOperation`, which is not a subclass of `ValueError`. -/
inductive PyErr : Type where
  | valueError (msg : String)
  | validationError (msg : String)
  | invalidOperation
  | divisionByZero
  | overflow
  | typeError (msg : String)
  | attributeError (msg : String)
deriving DecidableEq, Repr

/-- Dict lookup: value at the first occurrence of the key. -/
def lookupKey (d : PyDict) (k : String) : Option PyVal :=
  match d with
  | [] => Option.none
  | (k', v) :: rest => if k' = k then some v else lookupKey rest k

/-- Dict key removal, modelling `d.pop(k, ...)`: all bindings of `k`
disappear (a Python dict holds each key at most once). -/
def eraseKey (d : PyDict) (k : String) : PyDict :=
  d.filter (fun kv => kv.1 ≠ k)

/-- Dict assignment `d[k] = v`: replace in place if present, else append
(Python dicts keep insertion order; a fresh key goes to the end). -/
def setKey (d : PyDict) (k : String) (v : PyVal) : PyDict :=
  match d with
  | [] => [(k, v)]
  | (k', v') :: rest => if k' = k then (k, v) :: rest else (k', v') :: setKey rest k v

/-! Model of CPython `decimal.Decimal` as used by the serializer: finite
values only (the special values NaN and Infinity never arise from the
balance strings the serializer accepts nor from dividing by a power of
ten, so they are outside the modelled scope).  A value is
`(-1)^sign * coeff * 10^exp`. -/

/-- A finite CPython `decimal.Decimal` value. -/
structure PyDecimal : Type where
  sign : Bool
  coeff : Nat
  exp : Int
deriving DecidableEq, Repr

/-- The rational value of a finite decimal. -/
def decValue (x : PyDecimal) : ℚ :=
  (if x.sign then -1 else 1) * (x.coeff : ℚ) * (10 : ℚ) ^ x.exp

/-- Fuel-indexed digit counter; `fuel ≥ n` makes it count all base-10
digits of `n` (0 for `n = 0`). -/
def numDigitsFuel : Nat → Nat → Nat
  | 0, _ => 0
  | fuel + 1, n => if n = 0 then 0 else numDigitsFuel fuel (n / 10) + 1

/-- Number of digits of the coefficient string `str(coeff)` of a
nonzero coefficient (`len(self._int)` in `_pydecimal`). -/
def numDigits (n : Nat) : Nat := numDigitsFuel n n

/-- The character of one decimal digit. -/
def digitChar (d : Nat) : Char :=
  match d with
  | 0 => '0' | 1 => '1' | 2 => '2' | 3 => '3' | 4 => '4'
  | 5 => '5' | 6 => '6' | 7 => '7' | 8 => '8' | _ => '9'

/-- Numeric value of a digit character. -/
def digitVal (c : Char) : Nat := c.toNat - 48

/-- Whether a character is a decimal digit. -/
def isDigitCh (c : Char) : Bool := decide (48 ≤ c.toNat) && decide (c.toNat ≤ 57)

/-- Fuel-indexed digit-character renderer, most significant first. -/
def natDigitsStrFuel : Nat → Nat → List Char
  | 0, _ => []
  | fuel + 1, n => if n = 0 then [] else natDigitsStrFuel fuel (n / 10) ++ [digitChar (n % 10)]

/-- Big-endian digit characters of a positive natural (empty for 0),
modelling Python `str(n)` for positive `n`. -/
def natDigitsStr (n : Nat) : List Char := natDigitsStrFuel n n

/-- Python `"%+d" % v`: sign character (always present) then digits. -/
def intSignedStr (v : Int) : List Char :=
  (if v < 0 then '-' else '+') :: (if v.natAbs = 0 then ['0'] else natDigitsStr v.natAbs)

/-- Rendering of a finite decimal, following `Decimal.__str__` of
`_pydecimal` (scientific notation when the exponent calls for it). -/
def decStrChars (x : PyDecimal) : List Char :=
  let ds : List Char := if x.coeff = 0 then ['0'] else natDigitsStr x.coeff
  let nd : Int := (ds.length : Int)
  let leftdigits : Int := x.exp + nd
  let dotplace : Int := if x.exp ≤ 0 ∧ leftdigits > -6 then leftdigits else 1
  let mant : List Char :=
    if dotplace ≤ 0 then
      '0' :: '.' :: (List.replicate (-dotplace).toNat '0' ++ ds)
    else if nd ≤ dotplace then
      ds ++ List.replicate (dotplace - nd).toNat '0'
    else
      ds.take dotplace.toNat ++ '.' :: ds.drop dotplace.toNat
  let ePart : List Char :=
    if leftdigits = dotplace then [] else 'E' :: intSignedStr (leftdigits - dotplace)
  (if x.sign then ['-'] else []) ++ mant ++ ePart

/-- Python `str(d)` of a finite decimal. -/
def decStr (x : PyDecimal) : String := String.mk (decStrChars x)

/-- Value of a digit-character list read as a base-10 number. -/
def natFromDigits (cs : List Char) : Nat := cs.foldl (fun a c => 10 * a + digitVal c) 0

/-- Parse a nonempty all-digit character list. -/
def parseDigits (cs : List Char) : Option Nat :=
  if cs ≠ [] ∧ cs.all isDigitCh then some (natFromDigits cs) else Option.none

/-- Parse an optionally signed nonempty digit list (decimal exponent). -/
def parseSignedNat (cs : List Char) : Option Int :=
  match cs with
  | [] => Option.none
  | c :: rest =>
      if c = '+' then (parseDigits rest).map (fun n => (n : Int))
      else if c = '-' then (parseDigits rest).map (fun n => -(n : Int))
      else (parseDigits (c :: rest)).map (fun n => (n : Int))

/-- Longest prefix whose characters satisfy the test, and the rest. -/
def spanList (p : Char → Bool) : List Char → List Char × List Char
  | [] => ([], [])
  | c :: rest =>
      if p c then
        let pr := spanList p rest
        (c :: pr.1, pr.2)
      else ([], c :: rest)

/-- Split at the first exponent marker `e`/`E`, if any. -/
def splitAtExp (cs : List Char) : List Char × Option (List Char) :=
  match spanList (fun c => ¬(c = 'e' ∨ c = 'E')) cs with
  | (m, []) => (m, Option.none)
  | (m, _ :: t) => (m, some t)

/-- Split at the first decimal point, if any. -/
def splitAtDot (cs : List Char) : List Char × Option (List Char) :=
  match spanList (fun c => ¬c = '.') cs with
  | (m, []) => (m, Option.none)
  | (m, _ :: t) => (m, some t)

/-- Parse the body of a finite decimal literal (after the optional
sign): digits with an optional point and an optional exponent.  Returns
coefficient and exponent.  Mirrors the `_pydecimal` parsing regex for
finite values; the special values NaN and Infinity are out of modelled
scope. -/
def parseUnsignedDec (cs : List Char) : Option (Nat × Int) :=
  let me := splitAtExp cs
  let eOpt : Option Int :=
    match me.2 with
    | Option.none => some 0
    | some t => parseSignedNat t
  match eOpt with
  | Option.none => Option.none
  | some e =>
    let ipfp := splitAtDot me.1
    let ip := ipfp.1
    let fp := (ipfp.2).getD []
    if ip.all isDigitCh ∧ fp.all isDigitCh ∧ (ip ≠ [] ∨ fp ≠ []) then
      some (natFromDigits (ip ++ fp), e - (fp.length : Int))
    else Option.none

/-- Parse a finite decimal literal, modelling `Decimal(s)` for the
strings the serializer can produce or meet (no surrounding whitespace,
no NaN/Infinity).  Leading zeros are absorbed into the coefficient
value, as CPython stores `str(int(intpart + fracpart))`. -/
def parseDecimal (s : String) : Option PyDecimal :=
  match s.data with
  | [] => Option.none
  | c :: rest =>
      if c = '+' then (parseUnsignedDec rest).map (fun p => ⟨false, p.1, p.2⟩)
      else if c = '-' then (parseUnsignedDec rest).map (fun p => ⟨true, p.1, p.2⟩)
      else (parseUnsignedDec (c :: rest)).map (fun p => ⟨false, p.1, p.2⟩)

/-- Fuel-indexed form of the exact-quotient normalization loop of
`Decimal.__truediv__`: while the exponent is below the ideal exponent
and the coefficient ends in 0, shift one digit out.  Each iteration
raises the exponent by one, so `(ideal - exp).toNat` steps of fuel make
the fuel never run out before the guard fails. -/
def stripZerosFuel : Nat → Nat → Int → Int → Nat × Int
  | 0, coeff, exp, _ => (coeff, exp)
  | fuel + 1, coeff, exp, ideal =>
      if exp < ideal ∧ coeff % 10 = 0 then stripZerosFuel fuel (coeff / 10) (exp + 1) ideal
      else (coeff, exp)

/-- The exact-quotient normalization loop of `Decimal.__truediv__`. -/
def stripZeros (coeff : Nat) (exp ideal : Int) : Nat × Int :=
  stripZerosFuel (ideal - exp).toNat coeff exp ideal

/-- `Emin` of the CPython default decimal context. -/
def ctxEmin : Int := -999999

/-- `Emax` of the CPython default decimal context. -/
def ctxEmax : Int := 999999

/-- `Context.Etiny()`: the lowest admissible exponent,
`Emin - prec + 1`. -/
def ctxEtiny (prec : Nat) : Int := ctxEmin - prec + 1

/-- `Context.Etop()`: `Emax - prec + 1`; an adjusted exponent above it
overflows. -/
def ctxEtop (prec : Nat) : Int := ctxEmax - prec + 1

/-- `Decimal._fix` on finite values under the default context (clamp 0,
ROUND_HALF_EVEN, Overflow trapped so it raises): a zero coefficient has
its exponent clamped into `[Etiny, Emax]`; otherwise, if the adjusted
exponent exceeds `Emax` the trapped Overflow signal raises, and if the
exponent lies below `max(adjusted - prec + 1, Etiny)` the coefficient
is rounded half-even at that position — down to a bare zero when fewer
than no digits remain (the subnormal underflow that turns tiny
quotients into `0E-1000026`).  A rounding carry that lengthens the
coefficient past `prec` digits sheds its trailing zero and re-checks
overflow. -/
def fixPrec (prec : Nat) (x : PyDecimal) : Except PyErr PyDecimal :=
  if x.coeff = 0 then
    .ok ⟨x.sign, 0, min (max x.exp (ctxEtiny prec)) ctxEmax⟩
  else
    let nd : Int := (numDigits x.coeff : Int)
    let expMin0 : Int := nd + x.exp - prec
    if expMin0 > ctxEtop prec then .error .overflow
    else
      let expMin : Int := max expMin0 (ctxEtiny prec)
      if x.exp < expMin then
        let kept : Int := nd + x.exp - expMin
        if kept < 0 then .ok ⟨x.sign, 0, expMin⟩
        else
          let drop : Nat := (expMin - x.exp).toNat
          let q := x.coeff / 10 ^ drop
          let r := x.coeff % 10 ^ drop
          let q1 := if 2 * r > 10 ^ drop ∨ (2 * r = 10 ^ drop ∧ q % 2 = 1) then q + 1 else q
          if (numDigits q1 : Int) > prec then
            if expMin + 1 > ctxEtop prec then .error .overflow
            else .ok ⟨x.sign, q1 / 10, expMin + 1⟩
          else .ok ⟨x.sign, q1, expMin⟩
      else .ok x

/-- `Decimal.__truediv__` on finite values under a context of precision
`prec` (the default context has precision 28 and ROUND_HALF_EVEN). -/
def dec_div (prec : Nat) (a b : PyDecimal) : Except PyErr PyDecimal :=
  if b.coeff = 0 then .error .divisionByZero
  else
    let sign := xor a.sign b.sign
    if a.coeff = 0 then
      fixPrec prec ⟨sign, 0, a.exp - b.exp⟩
    else
      let shift : Int := (numDigits b.coeff : Int) - (numDigits a.coeff : Int) + prec + 1
      let exp : Int := a.exp - b.exp - shift
      let cr : Nat × Nat :=
        if 0 ≤ shift then ((a.coeff * 10 ^ shift.toNat) / b.coeff, (a.coeff * 10 ^ shift.toNat) % b.coeff)
        else (a.coeff / (b.coeff * 10 ^ (-shift).toNat), a.coeff % (b.coeff * 10 ^ (-shift).toNat))
      if cr.2 ≠ 0 then
        let c1 := if cr.1 % 5 = 0 then cr.1 + 1 else cr.1
        fixPrec prec ⟨sign, c1, exp⟩
      else
        let ideal : Int := a.exp - b.exp
        let ce := stripZeros cr.1 exp ideal
        fixPrec prec ⟨sign, ce.1, ce.2⟩

/-- `Decimal(n)` for a Python int. -/
def decOfInt (n : Int) : PyDecimal := ⟨decide (n < 0), n.natAbs, 0⟩

/-- Modelled from the spec: `TokenParams.get_token_decimals` (imported
from `web_app.contract_tools.constants`, which is not part of the
excerpt) is the external token-metadata collaborator of spec sections 2
and 6: `decimals(tokenAddress) -> integer`, an integer `>= 0`, raising
a `ValueError` for an unknown token, failures propagating as validation
errors.  The serializer is parameterized by this capability. -/
def TokenDecimals : Type := String → Except PyErr Nat

/-- `Decimal(balance)` on a raw dict value: strings are parsed (a parse
failure raises `decimal.InvalidOperation`, which is NOT a subclass of
`ValueError`), ints and bools convert exactly, other values raise
`TypeError`. -/
def decimalFromPyVal : PyVal → Except PyErr PyDecimal
  | .str s =>
      match parseDecimal s with
      | some x => .ok x
      | Option.none => .error .invalidOperation
  | .int n => .ok (decOfInt n)
  | .bool b => .ok ⟨false, cond b 1 0, 0⟩
  | _ => .error (.typeError "conversion from unsupported type to Decimal")

/-- The body of one iteration of `Position.convert_total_balances`:
fetch the token decimals, convert the balance with them, render; a
`ValueError` from the body is caught and re-raised with the context
message, any other exception propagates unchanged. -/
def convertBalanceEntry (g : TokenDecimals) (token_address : String) (balance : PyVal) :
    Except PyErr String :=
  let body : Except PyErr String := do
    let decimals ← g token_address
    let x ← decimalFromPyVal balance
    let q ← dec_div 28 x ⟨false, 10 ^ decimals, 0⟩
    pure (decStr q)
  match body with
  | .error (.valueError m) => .error (.valueError ("Error in balance conversion: " ++ m))
  | r => r

/-- The loop of `Position.convert_total_balances` over `balances.items()`
in insertion order; the first exception aborts the whole conversion. -/
def convertBalancesList (g : TokenDecimals) :
    List (String × PyVal) → Except PyErr (List (String × String))
  | [] => .ok []
  | (k, v) :: rest => do
      let s ← convertBalanceEntry g k v
      let tail ← convertBalancesList g rest
      pure ((k, s) :: tail)

/-- `Position.convert_total_balances` (a `mode="before"` validator): the
raw field value must be a dict (`.items()` on anything else raises
`AttributeError`); each balance is converted to its decimal-string
value. -/
def convert_total_balances (g : TokenDecimals) (balances : PyVal) :
    Except PyErr (List (String × String)) :=
  match balances with
  | .dict entries => convertBalancesList g entries
  | _ => .error (.attributeError "items")

/-- The `Data` model: position detail flags. -/
structure Data where
  collateral : Bool
  debt : Bool
deriving DecidableEq, Repr

/-- The `Position` model after validation.  `total_balances` holds the
`TotalBalances` root dict (token address to decimal string). -/
structure Position where
  data : Data
  token_address : Option String
  total_balances : List (String × String)
deriving DecidableEq, Repr

/-- The `Product` model after validation.  The `health_ratio` field is
a plain (non-optional) `str` in the source. -/
structure Product where
  name : String
  health_ratio : String
  positions : List Position
deriving DecidableEq, Repr

/-- The `ZkLendPositionResponse` model after validation. -/
structure ZkLendPositionResponse where
  products : List Product
deriving DecidableEq, Repr

/-- The `DashboardResponse` model after validation.  A datetime value
is kept as its accepted source string (the claims never inspect parsed
timestamps). -/
structure DashboardResponse where
  balances : PyDict
  multipliers : List (String × Option Int)
  start_dates : List (String × Option String)
  zklend_position : ZkLendPositionResponse

/-- Validation of the `Data` model: two required bool fields (pydantic
lax string/number coercions to bool are outside modelled scope; every
claim input uses genuine booleans). -/
def validateData : PyVal → Except PyErr Data
  | .dict d =>
      match lookupKey d "collateral", lookupKey d "debt" with
      | some (.bool c), some (.bool b) => .ok ⟨c, b⟩
      | _, _ => .error (.validationError "data")
  | _ => .error (.validationError "data")

/-- Field lookup for a model with `populate_by_name = True` and an
alias: pydantic v2 consults the alias first, then the field name. -/
def lookupAliased (d : PyDict) (wireName fieldName : String) : Option PyVal :=
  match lookupKey d wireName with
  | some v => some v
  | Option.none => lookupKey d fieldName

/-- Validation of the `Position` model: `data` (no alias) is required;
`token_address` (alias `tokenAddress`) is optional with default `None`;
`total_balances` (alias `totalBalances`) is required and passes through
the `convert_total_balances` before-validator. -/
def validatePosition (g : TokenDecimals) : PyVal → Except PyErr Position
  | .dict d => do
      let dv ← match lookupKey d "data" with
        | some v => validateData v
        | Option.none => .error (.validationError "data missing")
      let ta ← match lookupAliased d "tokenAddress" "token_address" with
        | Option.none => Except.ok Option.none
        | some .none => Except.ok Option.none
        | some (.str s) => Except.ok (some s)
        | some _ => .error (.validationError "token_address")
      let tb ← match lookupAliased d "totalBalances" "total_balances" with
        | Option.none => .error (.validationError "total_balances missing")
        | some v => convert_total_balances g v
      pure ⟨dv, ta, tb⟩
  | _ => .error (.validationError "position")

/-- Validation of a `List[Position]` field value, element by element. -/
def validatePositionList (g : TokenDecimals) : List PyVal → Except PyErr (List Position)
  | [] => .ok []
  | p :: rest => do
      let x ← validatePosition g p
      let xs ← validatePositionList g rest
      pure (x :: xs)

/-- A required plain `str` field: pydantic v2 accepts only an actual
string (in particular `None` is rejected, `str` is not optional). -/
def validateStrField (v : Option PyVal) : Except PyErr String :=
  match v with
  | some (.str s) => .ok s
  | _ => .error (.validationError "str field")

/-- `Product(**d)`: the `Product` model has no aliases, so fields are
taken under their declared names; extra keys are ignored. -/
def productFromDict (g : TokenDecimals) (d : PyDict) : Except PyErr Product := do
  let nm ← validateStrField (lookupKey d "name")
  let hr ← validateStrField (lookupKey d "health_ratio")
  let ps ← match lookupKey d "positions" with
    | some (.list l) => validatePositionList g l
    | _ => .error (.validationError "positions")
  pure ⟨nm, hr, ps⟩

/-- The expression `groups.get("1", {}).get("healthRatio")` where
`groups` is the value returned by `product.pop("groups", None)`: if
that value is not a dict (in particular if it is the `None` default for
an absent key), `.get` raises `AttributeError`; otherwise group `"1"`
is consulted with default `{}` and its `healthRatio` entry (default
`None`) is returned. -/
def healthFromGroups (groups : PyVal) : Except PyErr PyVal :=
  match groups with
  | .dict g =>
      match (lookupKey g "1").getD (.dict []) with
      | .dict inner => .ok ((lookupKey inner "healthRatio").getD .none)
      | _ => .error (.attributeError "get")
  | _ => .error (.attributeError "get")

/-- One iteration of `ZkLendPositionResponse.convert_products` on one
raw product.  The first component is the state of the caller-supplied
dict after the iteration: `pop` has removed `groups` even when a later
step fails, and `health_ratio` has been assigned exactly when the
right-hand side `groups.get("1", {}).get("healthRatio")` evaluated
without error.  The second component is `Product(**product)` or the
exception raised. -/
def convertOneProduct (g : TokenDecimals) (product : PyVal) :
    PyVal × Except PyErr Product :=
  match product with
  | .dict d =>
      let groups := lookupKey d "groups"
      let d1 := eraseKey d "groups"
      match healthFromGroups (groups.getD .none) with
      | .error e => (.dict d1, .error e)
      | .ok hrv =>
          let d2 := setKey d1 "health_ratio" hrv
          (.dict d2, productFromDict g d2)
  | _ => (product, .error (.attributeError "pop"))

/-- The loop of `ZkLendPositionResponse.convert_products`: products are
processed in input order; an exception aborts the loop, leaving the
already-processed dicts (and the failing one, to the extent reached)
mutated. -/
def convertProducts (g : TokenDecimals) :
    List PyVal → List PyVal × Except PyErr (List Product)
  | [] => ([], .ok [])
  | p :: rest =>
      match convertOneProduct g p with
      | (p', .error e) => (p' :: rest, .error e)
      | (p', .ok m) =>
          match convertProducts g rest with
          | (rest', .error e) => (p' :: rest', .error e)
          | (rest', .ok ms) => (p' :: rest', .ok (m :: ms))

/-- Validation of `ZkLendPositionResponse`: the `products` field (no
alias) defaults to the empty list when absent, in which case the
before-validator is not run; when present it must be a list of raw
product dicts and goes through `convert_products`.  (Iterating a
non-list raises; the model reports it as a `TypeError` without
distinguishing which exception class the failed iteration raises.) -/
def validateZkLend (g : TokenDecimals) : PyVal → Except PyErr ZkLendPositionResponse
  | .dict d =>
      match lookupKey d "products" with
      | Option.none => .ok ⟨[]⟩
      | some (.list l) => (convertProducts g l).2.map (fun ps => ⟨ps⟩)
      | some _ => .error (.typeError "products is not a list of dicts")
  | _ => .error (.validationError "zklend")

/-- A `Dict[str, int | None]` value: ints and `None` pass, decimal
integer strings coerce (pydantic v2 lax mode); other values fail. -/
def validateMultVal : PyVal → Except PyErr (Option Int)
  | .int n => .ok (some n)
  | .none => .ok Option.none
  | .str s =>
      match parseSignedNat s.data with
      | some n => .ok (some n)
      | Option.none => .error (.validationError "multiplier")
  | _ => .error (.validationError "multiplier")

/-- Validation of the `multipliers` dict, value by value. -/
def validateMultipliers : List (String × PyVal) → Except PyErr (List (String × Option Int))
  | [] => .ok []
  | (k, v) :: rest => do
      let x ← validateMultVal v
      let xs ← validateMultipliers rest
      pure ((k, x) :: xs)

/-- ISO calendar date `YYYY-MM-DD`. -/
def isIsoDate : List Char → Bool
  | [y1, y2, y3, y4, '-', m1, m2, '-', d1, d2] =>
      isDigitCh y1 && isDigitCh y2 && isDigitCh y3 && isDigitCh y4 &&
      isDigitCh m1 && isDigitCh m2 && isDigitCh d1 && isDigitCh d2 &&
      decide (1 ≤ 10 * digitVal m1 + digitVal m2) && decide (10 * digitVal m1 + digitVal m2 ≤ 12) &&
      decide (1 ≤ 10 * digitVal d1 + digitVal d2) && decide (10 * digitVal d1 + digitVal d2 ≤ 31)
  | _ => false

/-- ISO clock time `HH:MM:SS`. -/
def isIsoTime : List Char → Bool
  | [h1, h2, ':', m1, m2, ':', s1, s2] =>
      isDigitCh h1 && isDigitCh h2 && isDigitCh m1 && isDigitCh m2 &&
      isDigitCh s1 && isDigitCh s2 &&
      decide (10 * digitVal h1 + digitVal h2 ≤ 23) &&
      decide (10 * digitVal m1 + digitVal m2 ≤ 59) &&
      decide (10 * digitVal s1 + digitVal s2 ≤ 59)
  | _ => false

/-- A `datetime`-acceptable string of the form `YYYY-MM-DD` or
`YYYY-MM-DDTHH:MM:SS` (the subset of accepted formats the spec inputs
use; fractional seconds, offsets and timestamps are outside modelled
scope and no claim depends on them). -/
def isIsoDatetime (s : String) : Bool :=
  let cs := s.data
  if cs.length = 10 then isIsoDate cs
  else if cs.length = 19 then
    isIsoDate (cs.take 10) && (cs.drop 10).take 1 == ['T'] && isIsoTime (cs.drop 11)
  else false

/-- A `datetime | None` value. -/
def validateDateVal : PyVal → Except PyErr (Option String)
  | .str s => if isIsoDatetime s then .ok (some s) else .error (.validationError "datetime")
  | .none => .ok Option.none
  | _ => .error (.validationError "datetime")

/-- Validation of the `start_dates` dict, value by value. -/
def validateStartDates : List (String × PyVal) → Except PyErr (List (String × Option String))
  | [] => .ok []
  | (k, v) :: rest => do
      let x ← validateDateVal v
      let xs ← validateStartDates rest
      pure ((k, x) :: xs)

/-- Validation of `DashboardResponse`.  All four fields are required
(`...` in the source); none of them declares an alias and the model has
no `populate_by_name` configuration, so each is accepted only under its
declared name: `balances`, `multipliers`, `start_dates`,
`zklend_position`. -/
def validateDashboard (g : TokenDecimals) : PyVal → Except PyErr DashboardResponse
  | .dict d => do
      let b ← match lookupKey d "balances" with
        | some (.dict bd) => Except.ok bd
        | some _ => Except.error (.validationError "balances")
        | Option.none => Except.error (.validationError "balances missing")
      let m ← match lookupKey d "multipliers" with
        | some (.dict md) => validateMultipliers md
        | some _ => Except.error (.validationError "multipliers")
        | Option.none => Except.error (.validationError "multipliers missing")
      let sd ← match lookupKey d "start_dates" with
        | some (.dict sdd) => validateStartDates sdd
        | some _ => Except.error (.validationError "start_dates")
        | Option.none => Except.error (.validationError "start_dates missing")
      let zk ← match lookupKey d "zklend_position" with
        | some v => validateZkLend g v
        | Option.none => Except.error (.validationError "zklend_position missing")
      pure ⟨b, m, sd, zk⟩
  | _ => .error (.validationError "payload")

/-! Concrete inputs used by the scenarios of spec section 8. -/

/-- Modelled from the spec: a concrete instance of the
`TokenParams.get_token_decimals` collaborator realizing the hypothesis
`decimals("0xTOK") == 6` of spec section 8 item 6, raising `ValueError`
for every other token as described in spec sections 2 and 6. -/
def specTokens : TokenDecimals :=
  fun a => if a = "0xTOK" then .ok 6 else .error (.valueError "Token not found")

/-- The raw product of spec section 8 item 6, as a dict entry list. -/
def rawProductSpecEntries : PyDict :=
  [("name", .str "P1"),
   ("groups", .dict [("1", .dict [("healthRatio", .str "2.0")])]),
   ("positions", .list
     [.dict [("data", .dict [("collateral", .bool true), ("debt", .bool false)]),
             ("tokenAddress", .str "0xTOK"),
             ("totalBalances", .dict [("0xTOK", .str "1000000")])]])]

/-- The raw product of spec section 8 item 6. -/
def rawProductSpec : PyVal := .dict rawProductSpecEntries

/-- The section 8 item 6 payload under the wire-format top-level names
`startDates` / `zklendPosition`, exactly as the spec writes it. -/
def specPayloadWire : PyVal :=
  .dict [("balances", .dict [("ETH", .float 5)]),
         ("multipliers", .dict [("ETH", .int 2)]),
         ("startDates", .dict [("ETH", .str "2024-01-01T00:00:00")]),
         ("zklendPosition", .dict [("products", .list [rawProductSpec])])]

/-- The section 8 item 6 payload under the internal top-level names
`start_dates` / `zklend_position`. -/
def specPayloadInternal : PyVal :=
  .dict [("balances", .dict [("ETH", .float 5)]),
         ("multipliers", .dict [("ETH", .int 2)]),
         ("start_dates", .dict [("ETH", .str "2024-01-01T00:00:00")]),
         ("zklend_position", .dict [("products", .list [rawProductSpec])])]

/-- A minimal valid payload under the internal top-level names. -/
def minimalInternal : PyVal :=
  .dict [("balances", .dict []), ("multipliers", .dict []),
         ("start_dates", .dict []), ("zklend_position", .dict [])]

/-- The same minimal payload with the wire spellings substituted for
the two top-level fields whose casing differs. -/
def minimalWire : PyVal :=
  .dict [("balances", .dict []), ("multipliers", .dict []),
         ("startDates", .dict []), ("zklendPosition", .dict [])]

/-- The natural number a raw digit-string denotes. -/
def digitStringVal (s : String) : Nat := natFromDigits s.data

/-- A raw integer-valued balance string: nonempty and all digits. -/
def IsIntString (s : String) : Prop :=
  s.data ≠ [] ∧ ∀ c ∈ s.data, isDigitCh c = true

/-! Dict lemmas. -/

theorem lookupKey_eraseKey_self (d : PyDict) (k : String) :
    lookupKey (eraseKey d k) k = Option.none := by
  induction d with
  | nil => rfl
  | cons kv rest ih =>
    rcases kv with ⟨k', v⟩
    by_cases h : k' = k
    · simpa [eraseKey, List.filter_cons, h] using ih
    · simpa [eraseKey, List.filter_cons, lookupKey, h] using ih

theorem lookupKey_setKey_self (d : PyDict) (k : String) (v : PyVal) :
    lookupKey (setKey d k v) k = some v := by
  induction d with
  | nil => simp [setKey, lookupKey]
  | cons kv rest ih =>
    by_cases h : kv.1 = k
    · simp [setKey, h, lookupKey]
    · simp [setKey, h, lookupKey, ih]

theorem lookupKey_setKey_of_ne (d : PyDict) (k k' : String) (v : PyVal) (h : k ≠ k') :
    lookupKey (setKey d k v) k' = lookupKey d k' := by
  induction d with
  | nil => simp [setKey, lookupKey, h]
  | cons kv rest ih =>
    by_cases hk : kv.1 = k
    · simp [setKey, hk, lookupKey, h]
    · simp [setKey, hk, lookupKey, ih]

/-- Reduction of a successful bind in the `Except` monad. -/
theorem bind_ok_eq {ε α β : Type} (a : α) (f : α → Except ε β) :
    (do let x ← (Except.ok a : Except ε α); f x) = f a := rfl

/-- Reduction of a failing bind in the `Except` monad. -/
theorem bind_error_eq {ε α β : Type} (e : ε) (f : α → Except ε β) :
    (do let x ← (Except.error e : Except ε α); f x) = Except.error e := rfl

/-- A failure is not `isOk`. -/
theorem isOk_error {ε α : Type} (e : ε) : (Except.error e : Except ε α).isOk = false := rfl

/-- A success is `isOk`. -/
theorem isOk_ok {ε α : Type} (a : α) : (Except.ok a : Except ε α).isOk = true := rfl

/-! Claim theorems. -/

/-- C1: the claim states that a raw product with `groups` absent, or
with `groups` present but lacking key `"1"`, converts successfully with
a null health ratio and no error.  Evaluating the conversion on both
inputs shows the code does the opposite: with `groups` absent,
`product.pop("groups", None)` yields `None` and `None.get` raises
`AttributeError`; with `groups` equal to `{}`, the computed health
ratio is `None`, which the non-optional `str` field
`Product.health_ratio` rejects.  Both cases fail instead of producing a
null health ratio. -/
theorem C1_code_eval :
    (convertOneProduct specTokens
        (.dict [("name", .str "P1"), ("positions", .list [])])).2
      = .error (.attributeError "get") ∧
    (convertOneProduct specTokens
        (.dict [("name", .str "P1"), ("groups", .dict []), ("positions", .list [])])).2
      = .error (.validationError "str field") :=
  ⟨rfl, rfl⟩

/-- C2: the claim states that a non-numeric balance such as `"abc"`
makes normalization fail with a validation error carrying the original
message as context.  Normalization does fail, but `Decimal("abc")`
raises `decimal.InvalidOperation`, which is not a `ValueError`, so the
`except ValueError` wrap in `convert_total_balances` never fires: the
exception escapes unwrapped, not as a validation error with the
`"Error in balance conversion"` context. -/
theorem C2_code_eval :
    convert_total_balances specTokens (.dict [("0xTOK", .str "abc")])
      = .error .invalidOperation ∧
    ∀ m : String,
      (Except.error PyErr.invalidOperation : Except PyErr (List (String × String)))
        ≠ .error (.valueError m) :=
  ⟨rfl, fun _ h => by injection h with h; cases h⟩

/-- C9: a raw `ZkLendPositionResponse` input whose `products` key is
absent validates successfully to an empty products sequence — the field
takes its `default_factory=list` default and the before-validator is
not run. -/
theorem C9_default_products (g : TokenDecimals) (d : PyDict)
    (h : lookupKey d "products" = Option.none) :
    validateZkLend g (.dict d) = .ok ⟨[]⟩ := by
  simp [validateZkLend, h]

/-- Witness for C9 at the empty raw dict. -/
theorem C9_witness : validateZkLend specTokens (.dict []) = .ok ⟨[]⟩ :=
  C9_default_products specTokens [] rfl

/-- C6: two equivalent raw position inputs that differ only in the
spelling of the `tokenAddress` and `totalBalances` keys (wire casing
versus internal casing) validate to identical results under any
decimals lookup — `populate_by_name = True` makes both spellings
populate the same fields, so acceptance and output coincide. -/
theorem C6_alias_equiv (g : TokenDecimals) (dv tv bv : PyVal) :
    validatePosition g
        (.dict [("data", dv), ("tokenAddress", tv), ("totalBalances", bv)]) =
    validatePosition g
        (.dict [("data", dv), ("token_address", tv), ("total_balances", bv)]) :=
  rfl

/-- C7: for a raw product whose `groups` maps `"1"` to a group carrying
a `healthRatio` string, conversion produces the product with
`health_ratio` set to that string, drops the whole `groups` field from
the mutated dict (all groups other than `"1"` are discarded without
being inspected), and succeeds whenever the remaining fields are
valid. -/
theorem C7_health_extraction (g : TokenDecimals) (nm hr : String)
    (gd inner : PyDict) (rawPos : List PyVal) (ps : List Position)
    (h1 : lookupKey gd "1" = some (.dict inner))
    (h2 : lookupKey inner "healthRatio" = some (.str hr))
    (hps : validatePositionList g rawPos = .ok ps) :
    convertOneProduct g
        (.dict [("name", .str nm), ("groups", .dict gd), ("positions", .list rawPos)])
      = (.dict [("name", .str nm), ("positions", .list rawPos), ("health_ratio", .str hr)],
         .ok ⟨nm, hr, ps⟩) := by
  simp [convertOneProduct, lookupKey, eraseKey, List.filter_cons, healthFromGroups, h1, h2,
        setKey, productFromDict, validateStrField, hps, bind_ok_eq]

/-- Witness for C7: the spec section 8 item 3 product, with a second
group `"2"` present and discarded. -/
theorem C7_witness :
    convertOneProduct specTokens
        (.dict [("name", .str "P1"),
                ("groups", .dict [("1", .dict [("healthRatio", .str "1.5")]), ("2", .dict [])]),
                ("positions", .list [])])
      = (.dict [("name", .str "P1"), ("positions", .list []), ("health_ratio", .str "1.5")],
         .ok ⟨"P1", "1.5", []⟩) :=
  C7_health_extraction specTokens "P1" "1.5"
    [("1", .dict [("healthRatio", .str "1.5")]), ("2", .dict [])]
    [("healthRatio", .str "1.5")] [] [] rfl rfl rfl

/-- C10: product conversion mutates the caller-supplied raw product
dict in place.  Whenever conversion of a raw product succeeds, the dict
that comes out of the iteration is not the input dict: its `groups` key
(which the input necessarily had) has been removed by `pop` and a
`health_ratio` key has been inserted by assignment. -/
theorem C10_mutation (g : TokenDecimals) (d : PyDict) (m : Product)
    (h : (convertOneProduct g (.dict d)).2 = .ok m) :
    ∃ d' hrv,
      (convertOneProduct g (.dict d)).1 = .dict d' ∧
      lookupKey d' "groups" = Option.none ∧
      lookupKey d' "health_ratio" = some hrv ∧
      lookupKey d "groups" ≠ Option.none ∧
      d' ≠ d := by
  rcases hg : lookupKey d "groups" with _ | gv
  · exfalso
    simp [convertOneProduct, hg, healthFromGroups] at h
  · rcases hh : healthFromGroups gv with e | hrv
    · exfalso
      simp [convertOneProduct, hg, hh] at h
    · refine ⟨setKey (eraseKey d "groups") "health_ratio" hrv, hrv, ?_, ?_, ?_, ?_, ?_⟩
      · simp [convertOneProduct, hg, hh]
      · rw [lookupKey_setKey_of_ne _ _ _ _ (by decide)]
        exact lookupKey_eraseKey_self d "groups"
      · exact lookupKey_setKey_self _ _ _
      · simp [hg]
      · intro he
        have h1 : lookupKey (setKey (eraseKey d "groups") "health_ratio" hrv) "groups"
            = Option.none := by
          rw [lookupKey_setKey_of_ne _ _ _ _ (by decide)]
          exact lookupKey_eraseKey_self d "groups"
        rw [he, hg] at h1
        cases h1

/-- Witness for C10 at the spec section 8 product. -/
theorem C10_witness :
    ∃ d' hrv,
      (convertOneProduct specTokens (.dict rawProductSpecEntries)).1 = .dict d' ∧
      lookupKey d' "groups" = Option.none ∧
      lookupKey d' "health_ratio" = some hrv ∧
      lookupKey rawProductSpecEntries "groups" ≠ Option.none ∧
      d' ≠ rawProductSpecEntries :=
  C10_mutation specTokens rawProductSpecEntries
    ⟨"P1", "2.0", [⟨⟨true, false⟩, some "0xTOK", [("0xTOK", "1")]⟩]⟩ (by rfl)

/-- Any missing top-level field makes dashboard validation fail: shared
helper for the claims about required fields. -/
theorem validateDashboard_isOk_false_of_missing (g : TokenDecimals) (d : PyDict)
    (h : lookupKey d "balances" = Option.none ∨ lookupKey d "multipliers" = Option.none ∨
         lookupKey d "start_dates" = Option.none ∨ lookupKey d "zklend_position" = Option.none) :
    (validateDashboard g (.dict d)).isOk = false := by
  rcases h with h | h | h | h
  · simp [validateDashboard, h, bind_error_eq, isOk_error, bind_ok_eq]
  · rcases hb : lookupKey d "balances" with _ | v
    · simp [validateDashboard, hb, bind_error_eq, isOk_error, bind_ok_eq]
    · cases v
      case dict bd => simp [validateDashboard, hb, h, bind_ok_eq, isOk_error, bind_error_eq]
      all_goals simp [validateDashboard, hb, isOk_error, bind_ok_eq, bind_error_eq]
  · rcases hb : lookupKey d "balances" with _ | v
    · simp [validateDashboard, hb, bind_error_eq, isOk_error, bind_ok_eq]
    · cases v
      case dict bd =>
        rcases hm : lookupKey d "multipliers" with _ | w
        · simp [validateDashboard, hb, hm, bind_ok_eq, isOk_error, bind_error_eq]
        · cases w
          case dict md =>
            rcases hmv : validateMultipliers md with e | ms <;>
              simp [validateDashboard, hb, hm, hmv, h, bind_ok_eq, bind_error_eq, isOk_error]
          all_goals simp [validateDashboard, hb, hm, bind_ok_eq, isOk_error, bind_error_eq]
      all_goals simp [validateDashboard, hb, isOk_error, bind_ok_eq, bind_error_eq]
  · rcases hb : lookupKey d "balances" with _ | v
    · simp [validateDashboard, hb, bind_error_eq, isOk_error, bind_ok_eq]
    · cases v
      case dict bd =>
        rcases hm : lookupKey d "multipliers" with _ | w
        · simp [validateDashboard, hb, hm, bind_ok_eq, isOk_error, bind_error_eq]
        · cases w
          case dict md =>
            rcases hmv : validateMultipliers md with e | ms
            · simp [validateDashboard, hb, hm, hmv, bind_ok_eq, bind_error_eq, isOk_error]
            · rcases hs : lookupKey d "start_dates" with _ | u
              · simp [validateDashboard, hb, hm, hmv, hs, bind_ok_eq, isOk_error, bind_error_eq]
              · cases u
                case dict sdd =>
                  rcases hsv : validateStartDates sdd with e | ss <;>
                    simp [validateDashboard, hb, hm, hmv, hs, hsv, h, bind_ok_eq, bind_error_eq, isOk_error]
                all_goals simp [validateDashboard, hb, hm, hmv, hs, bind_ok_eq, isOk_error, bind_error_eq]
          all_goals simp [validateDashboard, hb, hm, bind_ok_eq, isOk_error, bind_error_eq]
      all_goals simp [validateDashboard, hb, isOk_error, bind_ok_eq, bind_error_eq]

/-- C8: a raw payload missing any one of the four top-level fields
(`balances`, `multipliers`, the start-dates field, the zklend-position
field) fails dashboard validation; no default is substituted. -/
theorem C8_required_fields (g : TokenDecimals) (d : PyDict)
    (h : lookupKey d "balances" = Option.none ∨ lookupKey d "multipliers" = Option.none ∨
         lookupKey d "start_dates" = Option.none ∨ lookupKey d "zklend_position" = Option.none) :
    (validateDashboard g (.dict d)).isOk = false :=
  validateDashboard_isOk_false_of_missing g d h

/-- Witness for C8 at the empty payload. -/
theorem C8_witness : (validateDashboard specTokens (.dict [])).isOk = false :=
  C8_required_fields specTokens [] (Or.inl rfl)

/-- C5 counterexample: the claim states that every payload valid under
the internal field names stays valid when the wire spellings are
substituted.  The minimal payload refutes it: under the internal names
it validates, while substituting `startDates`/`zklendPosition` for
`start_dates`/`zklend_position` makes validation fail, because
`DashboardResponse` declares no aliases and no `populate_by_name`. -/
theorem C5_counterexample :
    validateDashboard specTokens minimalInternal = .ok ⟨[], [], [], ⟨[]⟩⟩ ∧
    validateDashboard specTokens minimalWire
      = .error (.validationError "start_dates missing") :=
  ⟨rfl, rfl⟩

/-- C5 amended: the nested `Position` fields are accepted under both
spellings, but the top-level fields are accepted under their internal
names only — any successfully validated payload necessarily carries the
keys `start_dates` and `zklend_position` (the wire spellings are not
accepted in their place). -/
theorem C5_amended (g : TokenDecimals) (d : PyDict) (r : DashboardResponse)
    (h : validateDashboard g (.dict d) = .ok r) :
    lookupKey d "start_dates" ≠ Option.none ∧
    lookupKey d "zklend_position" ≠ Option.none := by
  constructor <;> intro hn
  · have hf := validateDashboard_isOk_false_of_missing g d (Or.inr (Or.inr (Or.inl hn)))
    rw [h] at hf
    cases hf
  · have hf := validateDashboard_isOk_false_of_missing g d (Or.inr (Or.inr (Or.inr hn)))
    rw [h] at hf
    cases hf

/-- Witness for C5 at the minimal internal payload. -/
theorem C5_witness :
    lookupKey [("balances", PyVal.dict []), ("multipliers", PyVal.dict []),
               ("start_dates", PyVal.dict []), ("zklend_position", PyVal.dict [])]
        "start_dates" ≠ Option.none ∧
    lookupKey [("balances", PyVal.dict []), ("multipliers", PyVal.dict []),
               ("start_dates", PyVal.dict []), ("zklend_position", PyVal.dict [])]
        "zklend_position" ≠ Option.none :=
  C5_amended specTokens _ ⟨[], [], [], ⟨[]⟩⟩ rfl

/-- C4 counterexample: with the payload written exactly as spec section
8 item 6 writes it — top-level keys `startDates` and `zklendPosition` —
validation does not succeed: `DashboardResponse` has no aliases, so the
required `start_dates` field is reported missing. -/
theorem C4_counterexample :
    validateDashboard specTokens specPayloadWire
      = .error (.validationError "start_dates missing") :=
  rfl

/-- C4 amended: with the two differing top-level keys spelled by their
internal names, the section 8 item 6 payload validates, the first
product's health ratio is `"2.0"`, and the converted balance at
`"0xTOK"` is `"1"` — the exact quotient `1000000 / 10^6` as rendered by
`str(Decimal)`, which drops trailing fractional zeros, not the spec's
`"1.000000"`. -/
theorem C4_amended_eval :
    validateDashboard specTokens specPayloadInternal
      = .ok ⟨[("ETH", .float 5)], [("ETH", some 2)], [("ETH", some "2024-01-01T00:00:00")],
             ⟨[⟨"P1", "2.0", [⟨⟨true, false⟩, some "0xTOK", [("0xTOK", "1")]⟩]⟩]⟩⟩ := by
  rfl

/-! Digit and rendering toolkit for the exact-conversion claim. -/

theorem digitVal_digitChar (d : Nat) (h : d < 10) : digitVal (digitChar d) = d := by
  interval_cases d <;> rfl

theorem isDigitCh_digitChar (d : Nat) : isDigitCh (digitChar d) = true := by
  unfold digitChar
  split <;> rfl

theorem digitVal_lt_ten (c : Char) (h : isDigitCh c = true) : digitVal c < 10 := by
  simp only [isDigitCh, Bool.and_eq_true, decide_eq_true_eq] at h
  unfold digitVal
  omega

theorem isDigitCh_ne (c : Char) (h : isDigitCh c = true) :
    c ≠ 'e' ∧ c ≠ 'E' ∧ c ≠ '.' ∧ c ≠ '+' ∧ c ≠ '-' := by
  simp only [isDigitCh, Bool.and_eq_true, decide_eq_true_eq] at h
  refine ⟨?_, ?_, ?_, ?_, ?_⟩ <;> rintro rfl <;> revert h <;> decide

theorem numDigitsFuel_eq (fuel n : Nat) (h : n ≤ fuel) :
    numDigitsFuel fuel n = (Nat.digits 10 n).length := by
  induction fuel generalizing n with
  | zero =>
    interval_cases n
    simp [numDigitsFuel]
  | succ f ih =>
    by_cases h0 : n = 0
    · subst h0
      simp [numDigitsFuel]
    · have hd : Nat.digits 10 n = n % 10 :: Nat.digits 10 (n / 10) :=
        Nat.digits_def' (by norm_num) (Nat.pos_of_ne_zero h0)
      have hlt : n / 10 ≤ f := by
        have := Nat.div_lt_self (Nat.pos_of_ne_zero h0) (by norm_num : 1 < 10)
        omega
      simp [numDigitsFuel, h0, ih _ hlt, hd]

theorem numDigits_eq_len (n : Nat) : numDigits n = (Nat.digits 10 n).length :=
  numDigitsFuel_eq n n le_rfl

theorem natDigitsStrFuel_eq (fuel n : Nat) (h : n ≤ fuel) :
    natDigitsStrFuel fuel n = (Nat.digits 10 n).reverse.map digitChar := by
  induction fuel generalizing n with
  | zero =>
    interval_cases n
    simp [natDigitsStrFuel]
  | succ f ih =>
    by_cases h0 : n = 0
    · subst h0
      simp [natDigitsStrFuel]
    · have hd : Nat.digits 10 n = n % 10 :: Nat.digits 10 (n / 10) :=
        Nat.digits_def' (by norm_num) (Nat.pos_of_ne_zero h0)
      have hlt : n / 10 ≤ f := by
        have := Nat.div_lt_self (Nat.pos_of_ne_zero h0) (by norm_num : 1 < 10)
        omega
      simp [natDigitsStrFuel, h0, ih _ hlt, hd]

theorem natDigitsStr_eq (n : Nat) :
    natDigitsStr n = (Nat.digits 10 n).reverse.map digitChar :=
  natDigitsStrFuel_eq n n le_rfl

theorem natDigitsStr_length (n : Nat) : (natDigitsStr n).length = numDigits n := by
  rw [natDigitsStr_eq, numDigits_eq_len, List.length_map, List.length_reverse]

theorem natDigitsStr_all_digits (n : Nat) :
    ∀ c ∈ natDigitsStr n, isDigitCh c = true := by
  rw [natDigitsStr_eq]
  intro c hc
  obtain ⟨d, _, rfl⟩ := List.mem_map.mp hc
  exact isDigitCh_digitChar d

theorem numDigits_pos (n : Nat) (h : n ≠ 0) : 1 ≤ numDigits n := by
  rw [numDigits_eq_len]
  rcases hd : Nat.digits 10 n with _ | ⟨a, t⟩
  · exact absurd (Nat.digits_eq_nil_iff_eq_zero.mp hd) h
  · simp

theorem numDigits_pow10 (d : Nat) : numDigits (10 ^ d) = d + 1 := by
  rw [numDigits_eq_len, Nat.digits_len 10 _ (by norm_num) (pow_ne_zero d (by norm_num)),
      Nat.log_pow (by norm_num)]

theorem lt_pow_numDigits (n : Nat) : n < 10 ^ numDigits n := by
  rw [numDigits_eq_len]
  exact Nat.lt_base_pow_length_digits (by norm_num)

theorem numDigits_le_of_lt_pow (n k : Nat) (h : n < 10 ^ k) : numDigits n ≤ k := by
  rw [numDigits_eq_len]
  by_cases h0 : n = 0
  · subst h0
    simp
  · have h1 := Nat.base_pow_length_digits_le 10 n (by norm_num) h0
    have h2 : (10 : ℕ) ^ (Nat.digits 10 n).length < 10 ^ (k + 1) := by
      calc (10 : ℕ) ^ (Nat.digits 10 n).length ≤ 10 * n := h1
        _ < 10 * 10 ^ k := by omega
        _ = 10 ^ (k + 1) := by ring
    have h3 := (Nat.pow_lt_pow_iff_right (by norm_num : 1 < 10)).mp h2
    omega

theorem numDigits_le_of_le (m n : Nat) (h : m ≤ n) : numDigits m ≤ numDigits n :=
  numDigits_le_of_lt_pow m _ (lt_of_le_of_lt h (lt_pow_numDigits n))

theorem natFromDigits_foldl (cs : List Char) (a : Nat) :
    cs.foldl (fun a c => 10 * a + digitVal c) a = a * 10 ^ cs.length + natFromDigits cs := by
  induction cs generalizing a with
  | nil => simp [natFromDigits]
  | cons c t ih =>
    simp only [natFromDigits, List.foldl_cons, mul_zero, zero_add, List.length_cons] at *
    rw [ih (10 * a + digitVal c), ih (digitVal c), pow_succ]
    ring

theorem natFromDigits_append (l1 l2 : List Char) :
    natFromDigits (l1 ++ l2) = natFromDigits l1 * 10 ^ l2.length + natFromDigits l2 := by
  unfold natFromDigits
  rw [List.foldl_append]
  exact natFromDigits_foldl l2 _

theorem natFromDigits_lt (cs : List Char) (h : ∀ c ∈ cs, isDigitCh c = true) :
    natFromDigits cs < 10 ^ cs.length := by
  induction cs with
  | nil => simp [natFromDigits]
  | cons c t ih =>
    have hc := digitVal_lt_ten c (h c (List.mem_cons_self c t))
    have ht := ih (fun x hx => h x (List.mem_cons_of_mem c hx))
    have : natFromDigits (c :: t) = digitVal c * 10 ^ t.length + natFromDigits t := by
      have := natFromDigits_append [c] t
      simpa [natFromDigits] using this
    rw [this, List.length_cons, pow_succ]
    nlinarith

theorem natFromDigits_zero_cons (l : List Char) :
    natFromDigits ('0' :: l) = natFromDigits l := by
  have h := natFromDigits_append ['0'] l
  rw [List.singleton_append] at h
  rw [h]
  norm_num [natFromDigits, digitVal]
  decide

theorem natFromDigits_replicate_zero (k : Nat) (l : List Char) :
    natFromDigits (List.replicate k '0' ++ l) = natFromDigits l := by
  induction k with
  | zero => simp
  | succ m ih => simp [List.replicate_succ, natFromDigits_zero_cons, ih]

theorem foldl_digitChar_map (L : List Nat) (a : Nat) (h : ∀ x ∈ L, x < 10) :
    (L.map digitChar).foldl (fun a c => 10 * a + digitVal c) a
      = L.foldl (fun a x => 10 * a + x) a := by
  induction L generalizing a with
  | nil => rfl
  | cons x t ih =>
    simp only [List.map_cons, List.foldl_cons]
    rw [digitVal_digitChar x (h x (List.mem_cons_self x t))]
    exact ih _ (fun y hy => h y (List.mem_cons_of_mem x hy))

theorem foldl_base10_eq (L : List Nat) (a : Nat) :
    L.foldl (fun a x => 10 * a + x) a = a * 10 ^ L.length + Nat.ofDigits 10 L.reverse := by
  induction L generalizing a with
  | nil => simp [Nat.ofDigits]
  | cons x t ih =>
    simp only [List.foldl_cons, List.reverse_cons, List.length_cons]
    rw [ih (10 * a + x), Nat.ofDigits_append]
    simp [Nat.ofDigits]
    ring

theorem natFromDigits_natDigitsStr (n : Nat) : natFromDigits (natDigitsStr n) = n := by
  rw [natDigitsStr_eq]
  unfold natFromDigits
  rw [foldl_digitChar_map _ _ (fun x hx => Nat.digits_lt_base (by norm_num)
        (List.mem_reverse.mp hx)),
      foldl_base10_eq]
  simp [Nat.ofDigits_digits]

/-! Parser lemmas. -/

theorem spanList_of_all (p : Char → Bool) (l : List Char) (h : ∀ c ∈ l, p c = true) :
    spanList p l = (l, []) := by
  induction l with
  | nil => rfl
  | cons c t ih =>
    have hc := h c (List.mem_cons_self c t)
    have ht := ih (fun x hx => h x (List.mem_cons_of_mem c hx))
    simp [spanList, hc, ht]

theorem spanList_of_stop (p : Char → Bool) (l r : List Char) (c : Char)
    (hl : ∀ x ∈ l, p x = true) (hc : p c = false) :
    spanList p (l ++ c :: r) = (l, c :: r) := by
  induction l with
  | nil => simp [spanList, hc]
  | cons x t ih =>
    have hx := hl x (List.mem_cons_self x t)
    have ht := ih (fun y hy => hl y (List.mem_cons_of_mem x hy))
    simp [spanList, hx, ht]

theorem expPred_of_digit (c : Char) (h : isDigitCh c = true) :
    (decide ¬(c = 'e' ∨ c = 'E')) = true := by
  obtain ⟨h1, h2, _, _, _⟩ := isDigitCh_ne c h
  simp [h1, h2]

theorem expPred_dot : (decide ¬(('.' : Char) = 'e' ∨ ('.' : Char) = 'E')) = true := by decide

theorem dotPred_of_digit (c : Char) (h : isDigitCh c = true) :
    (decide ¬c = '.') = true := by
  obtain ⟨_, _, h3, _, _⟩ := isDigitCh_ne c h
  simp [h3]

theorem parseDigits_of_digits (cs : List Char) (h0 : cs ≠ [])
    (h : ∀ c ∈ cs, isDigitCh c = true) :
    parseDigits cs = some (natFromDigits cs) := by
  unfold parseDigits
  rw [if_pos ⟨h0, List.all_eq_true.mpr h⟩]

theorem splitAtExp_none (cs : List Char)
    (h : ∀ c ∈ cs, (decide ¬(c = 'e' ∨ c = 'E')) = true) :
    splitAtExp cs = (cs, Option.none) := by
  unfold splitAtExp
  rw [spanList_of_all _ _ h]

theorem splitAtExp_marker (l r : List Char)
    (h : ∀ c ∈ l, (decide ¬(c = 'e' ∨ c = 'E')) = true) :
    splitAtExp (l ++ 'E' :: r) = (l, some r) := by
  unfold splitAtExp
  rw [spanList_of_stop _ _ _ _ h (by simp)]

theorem splitAtDot_none (cs : List Char) (h : ∀ c ∈ cs, (decide ¬c = '.') = true) :
    splitAtDot cs = (cs, Option.none) := by
  unfold splitAtDot
  rw [spanList_of_all _ _ h]

theorem splitAtDot_dot (l r : List Char) (h : ∀ c ∈ l, (decide ¬c = '.') = true) :
    splitAtDot (l ++ '.' :: r) = (l, some r) := by
  unfold splitAtDot
  rw [spanList_of_stop _ _ _ _ h (by simp)]

theorem parseUnsignedDec_digits (cs : List Char) (h0 : cs ≠ [])
    (h : ∀ c ∈ cs, isDigitCh c = true) :
    parseUnsignedDec cs = some (natFromDigits cs, 0) := by
  unfold parseUnsignedDec
  rw [splitAtExp_none cs (fun c hc => expPred_of_digit c (h c hc))]
  simp only
  rw [splitAtDot_none cs (fun c hc => dotPred_of_digit c (h c hc))]
  simp only
  rw [if_pos ⟨List.all_eq_true.mpr h, by simp, Or.inl h0⟩]
  simp


theorem parseUnsignedDec_dotted (ip fp : List Char) (hip : ip ≠ [])
    (hipd : ∀ c ∈ ip, isDigitCh c = true) (hfpd : ∀ c ∈ fp, isDigitCh c = true) :
    parseUnsignedDec (ip ++ '.' :: fp) = some (natFromDigits (ip ++ fp), -(fp.length : Int)) := by
  have hall : ∀ c ∈ ip ++ '.' :: fp, (decide ¬(c = 'e' ∨ c = 'E')) = true := by
    intro c hc
    rcases List.mem_append.mp hc with hc | hc
    · exact expPred_of_digit c (hipd c hc)
    · rcases List.mem_cons.mp hc with rfl | hc
      · exact expPred_dot
      · exact expPred_of_digit c (hfpd c hc)
  unfold parseUnsignedDec
  rw [splitAtExp_none _ hall]
  simp only
  rw [splitAtDot_dot ip fp (fun x hx => dotPred_of_digit x (hipd x hx))]
  simp only
  rw [if_pos ⟨List.all_eq_true.mpr hipd, List.all_eq_true.mpr hfpd, Or.inl hip⟩]
  simp

theorem parseUnsignedDec_digits_exp (cs sgn : List Char) (v : Int) (h0 : cs ≠ [])
    (h : ∀ c ∈ cs, isDigitCh c = true) (hs : parseSignedNat sgn = some v) :
    parseUnsignedDec (cs ++ 'E' :: sgn) = some (natFromDigits cs, v) := by
  unfold parseUnsignedDec
  rw [splitAtExp_marker cs sgn (fun x hx => expPred_of_digit x (h x hx))]
  simp only [hs]
  rw [splitAtDot_none cs (fun c hc => dotPred_of_digit c (h c hc))]
  simp only
  rw [if_pos ⟨List.all_eq_true.mpr h, by simp, Or.inl h0⟩]
  simp

theorem parseUnsignedDec_dotted_exp (ip fp sgn : List Char) (v : Int) (hip : ip ≠ [])
    (hipd : ∀ c ∈ ip, isDigitCh c = true) (hfpd : ∀ c ∈ fp, isDigitCh c = true)
    (hs : parseSignedNat sgn = some v) :
    parseUnsignedDec (ip ++ '.' :: fp ++ 'E' :: sgn)
      = some (natFromDigits (ip ++ fp), v - (fp.length : Int)) := by
  have hall : ∀ c ∈ ip ++ '.' :: fp, (decide ¬(c = 'e' ∨ c = 'E')) = true := by
    intro c hc
    rcases List.mem_append.mp hc with hc | hc
    · exact expPred_of_digit c (hipd c hc)
    · rcases List.mem_cons.mp hc with rfl | hc
      · exact expPred_dot
      · exact expPred_of_digit c (hfpd c hc)
  have hre : ip ++ '.' :: fp ++ 'E' :: sgn = (ip ++ '.' :: fp) ++ 'E' :: sgn := by
    simp
  unfold parseUnsignedDec
  rw [hre, splitAtExp_marker _ sgn hall]
  simp only [hs]
  rw [splitAtDot_dot ip fp (fun x hx => dotPred_of_digit x (hipd x hx))]
  simp only
  rw [if_pos ⟨List.all_eq_true.mpr hipd, List.all_eq_true.mpr hfpd, Or.inl hip⟩]
  simp

theorem natDigitsStr_ne_nil (w : Nat) (hw : w ≠ 0) : natDigitsStr w ≠ [] := by
  intro hnil
  have hlen := natDigitsStr_length w
  rw [hnil] at hlen
  have hpos := numDigits_pos w hw
  simp at hlen
  omega

theorem parseSignedNat_intSignedStr (v : Int) :
    parseSignedNat (intSignedStr v) = some v := by
  by_cases hv : v < 0
  · have hnz : v.natAbs ≠ 0 := by omega
    unfold intSignedStr parseSignedNat
    rw [if_pos hv, if_neg hnz]
    simp [parseDigits_of_digits _ (natDigitsStr_ne_nil _ hnz) (natDigitsStr_all_digits v.natAbs),
          natFromDigits_natDigitsStr]
    simp [abs_of_neg hv]
  · by_cases hz : v.natAbs = 0
    · have hz0 : v = 0 := by omega
      subst hz0
      decide
    · unfold intSignedStr parseSignedNat
      rw [if_neg hv, if_neg hz]
      simp [parseDigits_of_digits _ (natDigitsStr_ne_nil _ hz) (natDigitsStr_all_digits v.natAbs),
            natFromDigits_natDigitsStr]
      omega

theorem parseDecimal_mk_digit (c0 : Char) (t : List Char) (h : isDigitCh c0 = true) :
    parseDecimal (String.mk (c0 :: t))
      = (parseUnsignedDec (c0 :: t)).map (fun p => (⟨false, p.1, p.2⟩ : PyDecimal)) := by
  obtain ⟨_, _, _, h4, h5⟩ := isDigitCh_ne c0 h
  unfold parseDecimal
  simp [h4, h5]

theorem parseDecimal_digit_string (s : String) (h0 : s.data ≠ [])
    (h : ∀ c ∈ s.data, isDigitCh c = true) :
    parseDecimal s = some ⟨false, natFromDigits s.data, 0⟩ := by
  rcases hd : s.data with _ | ⟨c, t⟩
  · exact absurd hd h0
  · have hs : s = String.mk (c :: t) := by
      cases s
      simp at hd
      rw [hd]
    rw [hd] at h
    rw [hs, parseDecimal_mk_digit c t (h c (List.mem_cons_self c t)),
        parseUnsignedDec_digits (c :: t) (by simp) h]
    rfl

/-! Exactness of the division by a power of ten. -/

theorem stripZerosFuel_spec (fuel : Nat) (c : Nat) (e i : Int)
    (hf : (i - e).toNat ≤ fuel) :
    ((stripZerosFuel fuel c e i).1 : ℚ) * (10 : ℚ) ^ (stripZerosFuel fuel c e i).2
        = (c : ℚ) * (10 : ℚ) ^ e ∧
    ¬((stripZerosFuel fuel c e i).2 < i ∧ (stripZerosFuel fuel c e i).1 % 10 = 0) ∧
    e ≤ (stripZerosFuel fuel c e i).2 ∧
    (e ≤ i → (stripZerosFuel fuel c e i).2 ≤ i) := by
  induction fuel generalizing c e with
  | zero =>
    have hie : i ≤ e := by omega
    have hz : stripZerosFuel 0 c e i = (c, e) := rfl
    rw [hz]
    refine ⟨rfl, fun hc => ?_, le_rfl, fun h => ?_⟩
    · exact absurd (show e < i from hc.1) (by omega)
    · exact h
  | succ f ih =>
    by_cases hg : e < i ∧ c % 10 = 0
    · have hf' : (i - (e + 1)).toNat ≤ f := by omega
      have hred : stripZerosFuel (f + 1) c e i = stripZerosFuel f (c / 10) (e + 1) i := by
        simp only [stripZerosFuel, if_pos hg]
      obtain ⟨hv, hpost, hle, hub⟩ := ih (c / 10) (e + 1) hf'
      rw [hred]
      refine ⟨?_, hpost, by omega, fun _ => hub (by omega)⟩
      rw [hv]
      have h10 : (10 : ℚ) ^ (e + 1) = (10 : ℚ) ^ e * 10 := by
        rw [zpow_add_one₀ (by norm_num : (10 : ℚ) ≠ 0)]
      have hdvd : (10 : Nat) ∣ c := Nat.dvd_of_mod_eq_zero hg.2
      have hc : ((c / 10 : Nat) : ℚ) = (c : ℚ) / 10 := by
        rw [Nat.cast_div hdvd (by norm_num)]
        norm_num
      rw [h10, hc]
      ring
    · have hz : stripZerosFuel (f + 1) c e i = (c, e) := by
        simp only [stripZerosFuel, if_neg hg]
      rw [hz]
      exact ⟨rfl, fun hc => hg ⟨hc.1, hc.2⟩, le_rfl, fun h => h⟩

theorem stripZeros_spec (c : Nat) (e i : Int) :
    ((stripZeros c e i).1 : ℚ) * (10 : ℚ) ^ (stripZeros c e i).2 = (c : ℚ) * (10 : ℚ) ^ e ∧
    ¬((stripZeros c e i).2 < i ∧ (stripZeros c e i).1 % 10 = 0) ∧
    e ≤ (stripZeros c e i).2 ∧
    (e ≤ i → (stripZeros c e i).2 ≤ i) :=
  stripZerosFuel_spec _ c e i le_rfl

theorem fixPrec_eq_self (prec : Nat) (x : PyDecimal) (h0 : x.coeff ≠ 0)
    (hnd : numDigits x.coeff ≤ prec)
    (hlo : ctxEtiny prec ≤ x.exp) (hhi : x.exp ≤ ctxEtop prec) :
    fixPrec prec x = .ok x := by
  unfold fixPrec
  rw [if_neg h0,
      if_neg (show ¬((numDigits x.coeff : Int) + x.exp - prec > ctxEtop prec) from by omega),
      if_neg (show ¬(x.exp < max ((numDigits x.coeff : Int) + x.exp - prec) (ctxEtiny prec))
        from by omega)]

theorem dec_div_pow10_exact (b d : Nat) (hb : numDigits b ≤ 28) (hd : d ≤ 1000026) :
    ∃ q : PyDecimal, dec_div 28 ⟨false, b, 0⟩ ⟨false, 10 ^ d, 0⟩ = .ok q ∧
      q.sign = false ∧ decValue q = (b : ℚ) / 10 ^ d := by
  have hpow : ¬((10 : ℕ) ^ d = 0) := pow_ne_zero d (by norm_num)
  by_cases hb0 : b = 0
  · subst hb0
    refine ⟨⟨false, 0, 0⟩, ?_, rfl, ?_⟩
    · unfold dec_div
      rw [if_neg hpow]
      rfl
    · simp [decValue]
  · have hLd := numDigits_pow10 d
    have hL1 := numDigits_pos b hb0
    unfold dec_div
    rw [if_neg hpow, if_neg hb0]
    simp only []
    simp only [Nat.cast_ofNat, hLd]
    have hge : (0 : Int) ≤ ((d + 1 : Nat) : Int) - (numDigits b : Int) + 28 + 1 := by omega
    simp only [if_pos hge]
    have hsh : (((d + 1 : Nat) : Int) - (numDigits b : Int) + 28 + 1).toNat
        = d + 30 - numDigits b := by omega
    simp only [hsh]
    have hrem : b * 10 ^ (d + 30 - numDigits b) % 10 ^ d = 0 := by
      obtain ⟨c, hc⟩ : (10 : Nat) ^ d ∣ b * 10 ^ (d + 30 - numDigits b) :=
        Dvd.dvd.mul_left (pow_dvd_pow 10 (by omega)) b
      rw [hc, Nat.mul_mod_right]
    simp only [hrem]
    rw [if_neg (by simp : ¬((0 : Nat) ≠ 0))]
    have hq : b * 10 ^ (d + 30 - numDigits b) / 10 ^ d = b * 10 ^ (30 - numDigits b) := by
      rw [show d + 30 - numDigits b = (30 - numDigits b) + d from by omega, pow_add,
          ← mul_assoc, Nat.mul_div_cancel _ (Nat.pos_of_ne_zero hpow)]
    rw [hq]
    obtain ⟨hv, hpost, hle, hub⟩ := stripZeros_spec (b * 10 ^ (30 - numDigits b))
        (0 - 0 - (((d + 1 : Nat) : Int) - (numDigits b : Int) + 28 + 1)) (0 - 0)
    set c1 := (stripZeros (b * 10 ^ (30 - numDigits b))
        (0 - 0 - (((d + 1 : Nat) : Int) - (numDigits b : Int) + 28 + 1)) (0 - 0)).1 with hc1def
    set e1 := (stripZeros (b * 10 ^ (30 - numDigits b))
        (0 - 0 - (((d + 1 : Nat) : Int) - (numDigits b : Int) + 28 + 1)) (0 - 0)).2 with he1def
    have he1 : e1 ≤ 0 := by
      have := hub (by omega)
      omega
    have hv' : (c1 : ℚ) * (10 : ℚ) ^ e1 = (b : ℚ) * (10 : ℚ) ^ (-(d : Int)) := by
      rw [hv]
      have hcast : ((b * 10 ^ (30 - numDigits b) : Nat) : ℚ)
          = (b : ℚ) * (10 : ℚ) ^ ((30 - numDigits b : Nat) : Int) := by
        push_cast
        rw [zpow_natCast]
      have hexp : ((30 - numDigits b : Nat) : Int)
          + (0 - 0 - (((d + 1 : Nat) : Int) - (numDigits b : Int) + 28 + 1)) = -(d : Int) := by
        omega
      rw [hcast, mul_assoc, ← zpow_add₀ (by norm_num : (10 : ℚ) ≠ 0), hexp]
    set m := (-e1).toNat with hmdef
    have he1m : e1 = -(m : Int) := by omega
    have hkey : (c1 : ℚ) * (10 : ℚ) ^ (d : Nat) = (b : ℚ) * (10 : ℚ) ^ (m : Nat) := by
      have h2 := congrArg (fun z => z * (10 : ℚ) ^ ((m : Int) + (d : Int))) hv'
      simp only at h2
      rw [he1m, mul_assoc, mul_assoc, ← zpow_add₀ (by norm_num : (10 : ℚ) ≠ 0),
          ← zpow_add₀ (by norm_num : (10 : ℚ) ≠ 0),
          show -(m : Int) + ((m : Int) + (d : Int)) = ((d : Nat) : Int) from by ring,
          show -(d : Int) + ((m : Int) + (d : Int)) = ((m : Nat) : Int) from by ring,
          zpow_natCast, zpow_natCast] at h2
      exact h2
    have hNat : c1 * 10 ^ d = b * 10 ^ m := by exact_mod_cast hkey
    have hmle : m ≤ d := by
      by_contra hmd
      push_neg at hmd
      have hEq : c1 * 10 ^ d = b * 10 ^ (m - d) * 10 ^ d := by
        rw [hNat, mul_assoc, ← pow_add, show m - d + d = m from by omega]
      have hc1 : c1 = b * 10 ^ (m - d) :=
        Nat.eq_of_mul_eq_mul_right (Nat.pos_of_ne_zero hpow) hEq
      have hmod : c1 % 10 = 0 := by
        rw [hc1, show m - d = (m - d - 1) + 1 from by omega, pow_succ, ← mul_assoc,
            Nat.mul_mod_left]
      exact hpost ⟨by omega, hmod⟩
    have hc1b : c1 ≤ b := by
      have h1 : c1 * 10 ^ (d - m) * 10 ^ m = b * 10 ^ m := by
        rw [mul_assoc, ← pow_add, show d - m + m = d from by omega]
        exact hNat
      have h2 : c1 * 10 ^ (d - m) = b :=
        Nat.eq_of_mul_eq_mul_right (pow_pos (by norm_num) m) h1
      calc c1 ≤ c1 * 10 ^ (d - m) := Nat.le_mul_of_pos_right _ (pow_pos (by norm_num) _)
        _ = b := h2
    have hnd : numDigits c1 ≤ 28 := le_trans (numDigits_le_of_le _ _ hc1b) hb
    have hc1ne : c1 ≠ 0 := by
      intro hz
      rw [hz, zero_mul] at hNat
      rcases mul_eq_zero.mp hNat.symm with h9 | h9
      · exact hb0 h9
      · exact pow_ne_zero m (by norm_num) h9
    refine ⟨⟨false, c1, e1⟩, ?_, rfl, ?_⟩
    · show fixPrec 28 ⟨false, c1, e1⟩ = Except.ok (⟨false, c1, e1⟩ : PyDecimal)
      exact fixPrec_eq_self 28 ⟨false, c1, e1⟩ hc1ne hnd
        (by show ctxEtiny 28 ≤ e1; unfold ctxEtiny ctxEmin; omega)
        (by show e1 ≤ ctxEtop 28; unfold ctxEtop ctxEmax; omega)
    · show decValue ⟨false, c1, e1⟩ = (b : ℚ) / 10 ^ d
      have hdv : decValue ⟨false, c1, e1⟩ = (c1 : ℚ) * (10 : ℚ) ^ e1 := by
        unfold decValue
        simp
      rw [hdv, hv', zpow_neg, zpow_natCast]
      ring

/-! Round trip: the rendered string of a nonnegative finite decimal
parses back to the same decimal. -/

theorem parseDecimal_decStr (c : Nat) (e : Int) :
    parseDecimal (decStr ⟨false, c, e⟩) = some ⟨false, c, e⟩ := by
  unfold decStr decStrChars
  simp only []
  set ds : List Char := if c = 0 then ['0'] else natDigitsStr c with hds
  have hdsdig : ∀ x ∈ ds, isDigitCh x = true := by
    rw [hds]
    by_cases h0 : c = 0
    · rw [if_pos h0]
      intro x hx
      rcases List.mem_singleton.mp hx with rfl
      decide
    · rw [if_neg h0]
      exact natDigitsStr_all_digits c
  have hdsne : ds ≠ [] := by
    rw [hds]
    by_cases h0 : c = 0
    · simp [h0]
    · rw [if_neg h0]
      exact natDigitsStr_ne_nil c h0
  have hdsval : natFromDigits ds = c := by
    rw [hds]
    by_cases h0 : c = 0
    · rw [if_pos h0, h0]
      decide
    · rw [if_neg h0, natFromDigits_natDigitsStr]
  have hnd1 : 1 ≤ (ds.length : Int) := by
    have : ds.length ≠ 0 := fun hl => hdsne (List.length_eq_zero.mp hl)
    omega
  simp only [Bool.false_eq_true, if_false, List.nil_append]
  by_cases hA : e ≤ 0 ∧ e + (ds.length : Int) > -6
  · simp only [if_pos hA]
    by_cases hA1 : e + (ds.length : Int) ≤ 0
    · simp only [if_pos hA1, if_pos rfl, if_true, List.append_nil]
      rw [parseDecimal_mk_digit '0' _ (by decide),
          show ('0' :: '.' :: (List.replicate (-(e + (ds.length : Int))).toNat '0' ++ ds) : List Char)
              = ['0'] ++ '.' :: (List.replicate (-(e + (ds.length : Int))).toNat '0' ++ ds) from rfl,
          parseUnsignedDec_dotted ['0'] _ (by simp) (by intro x hx; rcases List.mem_singleton.mp hx with rfl; decide)
            (by
              intro x hx
              rcases List.mem_append.mp hx with hx | hx
              · rcases List.eq_of_mem_replicate hx with rfl
                decide
              · exact hdsdig x hx)]
      simp only [Option.map_some']
      congr 1
      rw [List.singleton_append, natFromDigits_zero_cons, natFromDigits_replicate_zero, hdsval]
      simp only [List.length_append, List.length_replicate]
      congr 1
      omega

    · simp only [if_neg hA1]
      by_cases hA2 : (ds.length : Int) ≤ e + (ds.length : Int)
      · have he0 : e = 0 := by omega
        subst he0
        simp only [zero_add, le_refl, eq_self_iff_true, if_true, sub_self, Int.toNat_zero,
                   List.replicate_zero, List.append_nil]
        obtain ⟨c0, t, hct⟩ := List.exists_cons_of_ne_nil hdsne
        rw [hct, parseDecimal_mk_digit c0 t (hdsdig c0 (hct ▸ List.mem_cons_self c0 t)),
            parseUnsignedDec_digits (c0 :: t) (by simp)
              (fun x hx => hdsdig x (hct ▸ hx))]
        simp only [Option.map_some']
        congr 1
        rw [← hct, hdsval]
      · simp only [if_neg hA2, if_pos rfl, if_true, List.append_nil]
        obtain ⟨c0, t, hct⟩ := List.exists_cons_of_ne_nil hdsne
        have hdp1 : 0 < e + (ds.length : Int) := by omega
        have hk : (e + ((ds.length : Nat) : Int)).toNat
            = ((e + ((ds.length : Nat) : Int)).toNat - 1) + 1 := by omega
        rw [hct] at hk ⊢
        set k : Nat := (e + (((c0 :: t).length : Nat) : Int)).toNat - 1 with hkdef
        rw [hk, List.take_succ_cons, List.drop_succ_cons, List.cons_append,
            parseDecimal_mk_digit c0 (List.take k t ++ '.' :: List.drop k t)
              (hdsdig c0 (hct ▸ List.mem_cons_self c0 t))]
        have hipd : ∀ x ∈ c0 :: List.take k t, isDigitCh x = true := by
          intro x hx
          rcases List.mem_cons.mp hx with rfl | hx
          · exact hdsdig x (hct ▸ List.mem_cons_self x t)
          · exact hdsdig x (hct ▸ List.mem_cons_of_mem c0 (List.mem_of_mem_take hx))
        have hfpd : ∀ x ∈ List.drop k t, isDigitCh x = true := by
          intro x hx
          exact hdsdig x (hct ▸ List.mem_cons_of_mem c0 (List.mem_of_mem_drop hx))
        rw [show (c0 :: (List.take k t ++ '.' :: List.drop k t) : List Char)
              = (c0 :: List.take k t) ++ '.' :: List.drop k t from by simp,
            parseUnsignedDec_dotted (c0 :: List.take k t) (List.drop k t) (by simp) hipd hfpd]
        simp only [Option.map_some', Option.some.injEq, PyDecimal.mk.injEq, true_and]
        constructor
        · rw [show ((c0 :: List.take k t) ++ List.drop k t : List Char)
                = c0 :: (List.take k t ++ List.drop k t) from by simp,
              List.take_append_drop, ← hct, hdsval]
        · have hkle : k + 1 < (c0 :: t).length := by
            have h9 : e + ((c0 :: t).length : Int) < ((c0 :: t).length : Int) := by
              rw [← hct]
              omega
            omega
          simp only [List.length_drop, List.length_cons] at *
          omega
  · have hB1 : e + (ds.length : Int) ≠ 1 := by omega
    simp only [if_neg hA, if_neg hB1]
    obtain ⟨c0, t, hct⟩ := List.exists_cons_of_ne_nil hdsne
    have hc0 : isDigitCh c0 = true := hdsdig c0 (hct ▸ List.mem_cons_self c0 t)
    have hsgn := parseSignedNat_intSignedStr (e + (ds.length : Int) - 1)
    by_cases hB2 : (ds.length : Int) ≤ 1
    · have hlen1 : ds.length = 1 := by omega
      have ht : t = [] := by
        rw [hct] at hlen1
        simpa using hlen1
      subst ht
      rw [if_neg (by norm_num : ¬(1 : Int) ≤ 0), if_pos hB2]
      rw [hct] at hdsval ⊢
      simp only [List.length_cons, List.length_nil, Nat.cast_one, zero_add, sub_self,
                 Int.toNat_zero, List.replicate_zero, List.append_nil, List.singleton_append]
      rw [parseDecimal_mk_digit c0 _ hc0,
          show (c0 :: 'E' :: intSignedStr (e + 1 - 1) : List Char)
              = [c0] ++ 'E' :: intSignedStr (e + 1 - 1) from rfl,
          parseUnsignedDec_digits_exp [c0] _ (e + 1 - 1) (by simp)
            (by
              intro x hx
              rcases List.mem_singleton.mp hx with rfl
              exact hc0)
            (parseSignedNat_intSignedStr (e + 1 - 1))]
      simp only [Option.map_some', Option.some.injEq, PyDecimal.mk.injEq, true_and]
      exact ⟨hdsval, by omega⟩
    · rw [if_neg (by norm_num : ¬(1 : Int) ≤ 0), if_neg hB2]
      rw [hct] at hdsval ⊢
      rw [show ((1 : Int)).toNat = 1 from rfl, List.take_succ_cons, List.take_zero,
          List.drop_succ_cons, List.drop_zero, List.append_assoc, List.cons_append,
          List.nil_append]
      rw [parseDecimal_mk_digit c0 _ hc0,
          show (c0 :: ('.' :: t ++ 'E' :: intSignedStr (e + ((c0 :: t).length : Int) - 1)) : List Char)
              = [c0] ++ '.' :: t ++ 'E' :: intSignedStr (e + ((c0 :: t).length : Int) - 1) from rfl,
          parseUnsignedDec_dotted_exp [c0] t _ (e + ((c0 :: t).length : Int) - 1) (by simp)
            (by
              intro x hx
              rcases List.mem_singleton.mp hx with rfl
              exact hc0)
            (fun x hx => hdsdig x (hct ▸ List.mem_cons_of_mem c0 hx))
            (parseSignedNat_intSignedStr (e + ((c0 :: t).length : Int) - 1))]
      simp only [Option.map_some', Option.some.injEq, PyDecimal.mk.injEq, true_and]
      constructor
      · rw [List.singleton_append, hdsval]
      · simp only [List.length_cons]
        push_cast
        ring

/-- One balance entry of at most 28 digits converts to a string whose
parsed value is exactly the raw value divided by the looked-up power of
ten. -/
theorem convertBalanceEntry_exact (g : TokenDecimals) (k s : String) (d : Nat)
    (hs1 : s.data ≠ []) (hs2 : ∀ ch ∈ s.data, isDigitCh ch = true)
    (hlen : s.data.length ≤ 28) (hd : d ≤ 1000026) (hg : g k = .ok d) :
    ∃ q : PyDecimal, convertBalanceEntry g k (.str s) = .ok (decStr q) ∧
      (parseDecimal (decStr q)).map decValue = some ((digitStringVal s : ℚ) / 10 ^ d) := by
  have h28 : numDigits (natFromDigits s.data) ≤ 28 :=
    numDigits_le_of_lt_pow _ _ (lt_of_lt_of_le (natFromDigits_lt s.data hs2)
      (pow_le_pow_right₀ (by norm_num) hlen))
  obtain ⟨q, hq, hsgn, hval⟩ := dec_div_pow10_exact (natFromDigits s.data) d h28 hd
  rcases q with ⟨qs, qc, qe⟩
  simp only at hsgn
  subst hsgn
  refine ⟨⟨false, qc, qe⟩, ?_, ?_⟩
  · unfold convertBalanceEntry
    have hdp : decimalFromPyVal (.str s) = .ok ⟨false, natFromDigits s.data, 0⟩ := by
      simp only [decimalFromPyVal, parseDecimal_digit_string s hs1 hs2]
    simp only [hg, bind_ok_eq, hdp, hq]
    rfl
  · rw [parseDecimal_decStr qc qe, Option.map_some', hval]
    rfl

/-- C3 counterexample: the claim promises the exact value
`rawValue / 10^decimals` for every integer-valued balance string, but
two independent rounding mechanisms of the default decimal context break
it. First, precision: the context rounds to 28 significant digits, so
the 29-digit balance `10^28 + 1` with 6 decimals converts to
`"10000000000000000000000.00000"`, whose value is `10^22`, not the exact
quotient `(10^28 + 1) / 10^6`. Second, subnormal underflow: `_fix`
raises any exponent below Etiny = -1000026 back to Etiny, dropping
digits; the exact quotient of balance `5` with 1000050 decimals reaches
`_fix` as coefficient 5 with exponent -1000050, where all digits are
dropped and the result is rendered `"0E-1000026"`, with value `0`, not
the nonzero exact quotient `5 / 10^1000050`. -/
theorem C3_counterexample :
    (convert_total_balances specTokens (.dict [("0xTOK", .str "10000000000000000000000000001")])
      = .ok [("0xTOK", "10000000000000000000000.00000")] ∧
    (parseDecimal "10000000000000000000000.00000").map decValue = some ((10 : ℚ) ^ 22) ∧
    ((10 : ℚ) ^ 22) ≠ ((10 ^ 28 + 1 : ℚ) / 10 ^ 6)) ∧
    (fixPrec 28 ⟨false, 5, -1000050⟩ = .ok ⟨false, 0, -1000026⟩ ∧
    decStr ⟨false, 0, -1000026⟩ = "0E-1000026" ∧
    decValue ⟨false, 0, -1000026⟩ ≠ (5 : ℚ) / 10 ^ 1000050) := by
  refine ⟨⟨by rfl, ?_, ?_⟩, by rfl, by rfl, ?_⟩
  · have hp : parseDecimal "10000000000000000000000.00000"
        = some ⟨false, 10 ^ 27, -5⟩ := by rfl
    rw [hp, Option.map_some']
    congr 1
    unfold decValue
    rw [show ((-5 : Int)) = -((5 : Nat) : Int) from rfl, zpow_neg, zpow_natCast]
    norm_num
  · rw [ne_eq, eq_div_iff (by norm_num : ((10 : ℚ) ^ 6) ≠ 0)]
    norm_num
  · have hz : decValue ⟨false, 0, -1000026⟩ = 0 := by
      unfold decValue
      norm_num
    rw [hz]
    exact (ne_of_gt (div_pos (by norm_num) (pow_pos (by norm_num) 1000050))).symm

/-- C3 amended: restricted to balance values of at most 28 digits
(within the context precision) and decimals of at most 1000026 (so the
quotient exponent stays at or above the default context Etiny of
-1000026 and escapes the subnormal rounding of `Decimal._fix`),
normalization succeeds, keeps exactly the input keys in order, and each
output string re-parses to the exact rational `rawValue / 10^decimals`
with no rounding of any kind. -/
theorem C3_amended (g : TokenDecimals) (entries : List (String × PyVal))
    (h : ∀ kv ∈ entries, ∃ s d, kv.2 = PyVal.str s ∧ IsIntString s ∧ s.data.length ≤ 28 ∧
           d ≤ 1000026 ∧ g kv.1 = .ok d) :
    ∃ out, convert_total_balances g (.dict entries) = .ok out ∧
      out.map Prod.fst = entries.map Prod.fst ∧
      List.Forall₂ (fun (kv : String × PyVal) (ov : String × String) =>
          ∃ s d, kv.2 = PyVal.str s ∧ g kv.1 = .ok d ∧
            (parseDecimal ov.2).map decValue = some ((digitStringVal s : ℚ) / 10 ^ d))
        entries out := by
  revert h
  induction entries with
  | nil =>
    intro h
    exact ⟨[], rfl, rfl, List.Forall₂.nil⟩
  | cons kv rest ih =>
    intro h
    rcases kv with ⟨k1, v1⟩
    obtain ⟨s, d, hkv2, hint, hlen, hdb, hgkv⟩ := h (k1, v1) (List.mem_cons_self _ rest)
    simp only at hkv2 hgkv
    subst hkv2
    obtain ⟨out1, hout1, hkeys, hrel⟩ := ih (fun x hx => h x (List.mem_cons_of_mem _ hx))
    obtain ⟨q, hq, hparse⟩ := convertBalanceEntry_exact g k1 s d hint.1 hint.2 hlen hdb hgkv
    refine ⟨(k1, decStr q) :: out1, ?_, ?_, ?_⟩
    · show convertBalancesList g ((k1, PyVal.str s) :: rest) = Except.ok ((k1, decStr q) :: out1)
      unfold convertBalancesList
      rw [hq, bind_ok_eq, show convertBalancesList g rest = Except.ok out1 from hout1,
          bind_ok_eq]
      rfl
    · simp only [List.map_cons, hkeys]
    · exact List.Forall₂.cons ⟨s, d, rfl, hgkv, hparse⟩ hrel

/-- Witness for C3 at the balance `"1500000"` with 6 decimals. -/
theorem C3_witness :
    ∃ out,
      convert_total_balances specTokens (.dict [("0xTOK", .str "1500000")]) = .ok out ∧
      out.map Prod.fst = [("0xTOK", PyVal.str "1500000")].map Prod.fst ∧
      List.Forall₂ (fun (kv : String × PyVal) (ov : String × String) =>
          ∃ s d, kv.2 = PyVal.str s ∧ specTokens kv.1 = .ok d ∧
            (parseDecimal ov.2).map decValue = some ((digitStringVal s : ℚ) / 10 ^ d))
        [("0xTOK", PyVal.str "1500000")] out :=
  C3_amended specTokens [("0xTOK", .str "1500000")] (by
    intro kv hkv
    rcases List.mem_singleton.mp hkv with rfl
    exact ⟨"1500000", 6, rfl, ⟨by decide, by decide⟩, by decide, by norm_num, rfl⟩)

end Spotnet
